import Mathlib

/-!
# net-cat: registration, registry, broadcast and history

A shallow embedding of `internal/utils/utils.go`, `internal/server/client.go`
and `internal/server/server.go`.

Modelling conventions.

* A Go `string` is the list of runes that `range` / `unicode` decoding sees
  (`Str := List Char`).
* `time.Time` values are opaque clock readings (`Nat`).
* The constants of the package `net-cat/internal/config` are not available
  (the file at `internal/config/config.go` holds an unrelated parser), so
  they are the fields of `Config`; the two standard-library functions whose
  tables are not reproduced here (`unicode.ToLower` above ASCII and
  `time.Time.Format`) are the fields of `Lib`.
* Everything a function does to the outside world (socket writes, closes,
  channel operations, `go` statements) is appended to a trace of `Event`s.
* Environment choices (the clock, whether a receiver is ready on an
  unbuffered channel, whether a socket write fails) are explicit arguments.
-/

namespace NetCat

/-! ## Strings -/

/-- A Go string, seen as its sequence of runes. -/
abbrev Str := List Char

/-- The rune test `unicode.IsSpace`: the Latin-1 spaces
`\t \n \v \f \r`, space, U+0085, U+00A0, and the code points with the
`White_Space` property above Latin-1. -/
def isSpace (c : Char) : Bool :=
  let n := c.toNat
  (9 ≤ n && n ≤ 13) || n == 32 || n == 0x85 || n == 0xA0 || n == 0x1680 ||
  (0x2000 ≤ n && n ≤ 0x200A) || n == 0x2028 || n == 0x2029 || n == 0x202F ||
  n == 0x205F || n == 0x3000

/-- The function `strings.TrimSpace`: the slice of `s` with all leading and
trailing white space removed. -/
def TrimSpace (s : Str) : Str :=
  ((s.dropWhile isSpace).reverse.dropWhile isSpace).reverse

/-- The rune test in the loop of `ValidateName`:
`(char >= 'a' && char <= 'z') || (char >= 'A' && char <= 'Z') ||
 (char >= '0' && char <= '9') || char == '_' || char == '-'`. -/
def nameChar (c : Char) : Bool :=
  let n := c.toNat
  (97 ≤ n && n ≤ 122) || (65 ≤ n && n ≤ 90) || (48 ≤ n && n ≤ 57) ||
  n == 95 || n == 45

/-- The loop `for _, char := range name` of `ValidateName`, with its early
`return false`. -/
def validRunes : Str → Bool
  | [] => true
  | c :: rest => if !nameChar c then false else validRunes rest

/-- ValidateName checks if the provided name is valid. -/
def ValidateName (name : Str) : Bool :=
  let name := TrimSpace name
  if name = [] then false else validRunes name

/-- Standard-library functions that are used but whose tables are not
reproduced: `unicodeLower` is `unicode.ToLower` on runes above ASCII,
`format layout t` is `t.Format(layout)`. -/
structure Lib where
  unicodeLower : Char → Char
  format : Str → Nat → Str

/-- The function `unicode.ToLower`: ASCII is handled inline, the rest goes
through the case tables. -/
def toLowerRune (lib : Lib) (c : Char) : Char :=
  if c.toNat ≤ 127 then
    (if 65 ≤ c.toNat ∧ c.toNat ≤ 90 then Char.ofNat (c.toNat + 32) else c)
  else lib.unicodeLower c

/-- The function `strings.ToLower`. -/
def ToLower (lib : Lib) (s : Str) : Str := s.map (toLowerRune lib)

/-- NormalizeName converts a name to lowercase for consistent comparison. -/
def NormalizeName (lib : Lib) (name : Str) : Str :=
  ToLower lib (TrimSpace name)

/-- FormatMessage formats a chat message with timestamp:
`fmt.Sprintf("[%s][%s]: %s\n", timestamp, name, message)`. -/
def FormatMessage (timestamp name message : Str) : Str :=
  "[".toList ++ timestamp ++ "][".toList ++ name ++ "]: ".toList ++ message ++ "\n".toList

/-! ## Configuration -/

/-- The constants of `net-cat/internal/config` that the server uses. -/
structure Config where
  MaxClients : Int
  WelcomeBanner : Str
  NamePrompt : Str
  EmptyNameError : Str
  FullServerError : Str
  JoinedMessage : Str
  LeftMessage : Str
  TimeFormat : Str

/-! ## Data model -/

/-- The struct `Message`. -/
structure Message where
  Time : Nat
  From : Str
  Content : Str
deriving DecidableEq, Inhabited

/-- The struct `Client`.  `conn` names the accepted connection; the channel
`outgoing` is created once per client in `NewClient` and is identified with
the client; the `server` pointer always refers to the one server. -/
structure Client where
  conn : Nat
  name : Str
  workers : Nat
deriving DecidableEq, Inhabited

/-- The tasks started with a `go` statement. -/
inductive Task
  | handleConnection (conn : Nat)
  | messageWorker (conn : Nat)
  | Read (conn : Nat)
  | Write (conn : Nat)
deriving DecidableEq

/-- Effects on the outside world, in program order. -/
inductive Event
  /-- The call `conn.Write(data)`. -/
  | connWrite (conn : Nat) (data : Str)
  /-- The call `conn.Close()`. -/
  | connClose (conn : Nat)
  /-- The call `close(client.outgoing)`. -/
  | chanClose (client : Client)
  /-- The blocking send `client.outgoing <- msg` of `sendHistory`. -/
  | chanSend (client : Client) (msg : Message)
  /-- The `select` of `broadcast`: `taken` tells whether the send case ran
  (a receiver was ready) or the `default` case did (the message is dropped
  for this client). -/
  | chanTry (client : Client) (msg : Message) (taken : Bool)
  /-- A `go` statement. -/
  | spawn (t : Task)
deriving DecidableEq

/-- The struct `Server` (the mutex is implicit: every function below that
touches `clients` or `messages` does so inside one locked region). -/
structure Server where
  port : Int
  clients : List (Str × Client)
  messages : List Message
deriving DecidableEq

/-- The server together with the effects performed so far. -/
structure World where
  server : Server
  trace : List Event
deriving DecidableEq

/-- Append effects to the trace. -/
def World.emit (w : World) (es : List Event) : World :=
  { w with trace := w.trace ++ es }

/-! ### The Go map `map[string]*Client` as an association list -/

/-- The map update `m[k] = v`. -/
def mapSet : List (Str × Client) → Str → Client → List (Str × Client)
  | [], k, v => [(k, v)]
  | (k0, v0) :: rest, k, v =>
    if k0 = k then (k, v) :: rest else (k0, v0) :: mapSet rest k v

/-- The builtin `delete(m, k)`. -/
def mapDelete (m : List (Str × Client)) (k : Str) : List (Str × Client) :=
  m.filter (fun e => e.1 ≠ k)

/-- The lookup `m[k]` with its presence flag. -/
def mapGet (m : List (Str × Client)) (k : Str) : Option Client :=
  (m.find? (fun e => e.1 = k)).map Prod.snd

/-! ## server.go -/

/-- NewServer creates a new server instance. -/
def NewServer (port : Int) : Server :=
  { port := port, clients := [], messages := [] }

/-- The function `Server.broadcast`: append to the history, snapshot the
registered clients, then try a non-blocking send to each of them.  The order
of the list stands for the unspecified iteration order of the map; `ready`
tells for which recipients the send case of the `select` runs. -/
def broadcast (ready : Client → Bool) (msg : Message) (w : World) : World :=
  let messages := w.server.messages ++ [msg]
  let clients := w.server.clients.map Prod.snd
  { server := { w.server with messages := messages },
    trace := w.trace ++ clients.map (fun client => Event.chanTry client msg (ready client)) }

/-- The function `Server.removeClient`; `now` is what `time.Now()` returns
if it is called. -/
def removeClient (cfg : Config) (now : Nat) (ready : Client → Bool)
    (client : Client) (w : World) : World :=
  match mapGet w.server.clients client.name with
  | some _ =>
    let leaveMsg : Message :=
      { Time := now, From := "system".toList, Content := client.name ++ cfg.LeftMessage }
    let w1 : World :=
      { server := { w.server with clients := mapDelete w.server.clients client.name },
        trace := w.trace ++ [Event.chanClose client, Event.connClose client.conn] }
    broadcast ready leaveMsg w1
  | none => w

/-- The function `Server.sendHistory`: copy the history under the read lock,
then send every copied message on the client's channel. -/
def sendHistory (client : Client) (w : World) : World :=
  let history := w.server.messages
  w.emit (history.map (fun msg => Event.chanSend client msg))

/-- The locked insertion `s.clients[client.name] = client` of
`handleConnection`. -/
def register (client : Client) (w : World) : World :=
  { w with server := { w.server with clients := mapSet w.server.clients client.name client } }

/-- One iteration of the accept loop of `Server.Start`, for a connection that
`listener.Accept()` returned. -/
def acceptOne (cfg : Config) (conn : Nat) (w : World) : World :=
  let clientCount : Int := w.server.clients.length
  if clientCount ≥ cfg.MaxClients then
    w.emit [Event.connWrite conn (cfg.FullServerError ++ "\n".toList), Event.connClose conn]
  else
    w.emit [Event.spawn (Task.handleConnection conn)]

/-- The accept loop of `Server.Start` over the first results of
`listener.Accept()`; `none` is an accept error (`continue`). -/
def acceptLoop (cfg : Config) : List (Option Nat) → World → World
  | [], w => w
  | none :: rest, w => acceptLoop cfg rest w
  | some conn :: rest, w => acceptLoop cfg rest (acceptOne cfg conn w)

/-! ## client.go -/

/-- NewClient creates and initializes a new Client instance, and starts the
worker pool. -/
def NewClient (conn : Nat) (w : World) : Client × World :=
  let c : Client := { conn := conn, name := [], workers := 10 }
  (c, w.emit (List.replicate c.workers (Event.spawn (Task.messageWorker conn))))

/-- The body of the `for` loop of `Client.getName` for one line that
`ReadString` returned: `some name` is `return originalName, nil`, `none` is
`continue`. -/
def getNameBody (cfg : Config) (lib : Lib) (c : Client) (name : Str) (w : World) :
    Option Str × World :=
  let originalName := TrimSpace name
  if !ValidateName originalName then
    (none, w.emit [Event.connWrite c.conn (cfg.EmptyNameError ++ "\n".toList),
                   Event.connWrite c.conn cfg.NamePrompt])
  else
    let normalizedName := NormalizeName lib originalName
    let exists_ := w.server.clients.any
      (fun e => decide (NormalizeName lib e.1 = normalizedName))
    if exists_ then
      (none, w.emit [Event.connWrite c.conn "This name is already taken\n".toList,
                     Event.connWrite c.conn cfg.NamePrompt])
    else
      (some originalName, w)

/-- The function `Client.getName` on the lines that the connection delivers
before it fails: when they run out, `ReadString` returns an error. -/
def getName (cfg : Config) (lib : Lib) (c : Client) : List Str → World → Except Str Str × World
  | [], w => (Except.error "failed to read name".toList, w)
  | name :: rest, w =>
    match getNameBody cfg lib c name w with
    | (some originalName, w1) => (Except.ok originalName, w1)
    | (none, w1) => getName cfg lib c rest w1

/-- One line read by `Client.Read`, with what the environment answers while
it is handled: the clock, and which recipients have a receiver ready. -/
structure Line where
  text : Str
  now : Nat
  ready : Client → Bool

/-- The `for` loop of `Client.Read` over the lines read before the read
error. -/
def readLoop (c : Client) : List Line → World → World
  | [], w => w
  | l :: rest, w =>
    let message := TrimSpace l.text
    if message = [] then readLoop c rest w
    else
      let msg : Message := { Time := l.now, From := c.name, Content := message }
      readLoop c rest (broadcast l.ready msg w)

/-- The function `Client.Read`: the loop, then the deferred `removeClient`
when the read fails. -/
def Read (cfg : Config) (c : Client) (lines : List Line) (now : Nat)
    (ready : Client → Bool) (w : World) : World :=
  removeClient cfg now ready c (readLoop c lines w)

/-- The function `Client.Write` on the messages this consumer receives from
`c.outgoing`, each with the outcome of its socket write (`true`: no error).
The list running out is the channel being closed. -/
def Write (cfg : Config) (lib : Lib) (c : Client) : List (Message × Bool) → World → World
  | [], w => w
  | (msg, ok) :: rest, w =>
    let formattedMsg := FormatMessage (lib.format cfg.TimeFormat msg.Time) msg.From msg.Content
    let w1 := w.emit [Event.connWrite c.conn formattedMsg]
    if ok then Write cfg lib c rest w1 else w1

/-- The function `Client.messageWorker` on the messages this worker receives
from `c.outgoing`; write errors are ignored. -/
def messageWorker (lib : Lib) (c : Client) : List Message → World → World
  | [], w => w
  | msg :: rest, w =>
    let data := FormatMessage (lib.format "2006-01-02 15:04:05".toList msg.Time) msg.From msg.Content
    messageWorker lib c rest (w.emit [Event.connWrite c.conn data])

/-- The function `Server.handleConnection`, run without interference from
other tasks: `lines` is what the connection delivers during negotiation. -/
def handleConnection (cfg : Config) (lib : Lib) (conn : Nat) (lines : List Str)
    (now : Nat) (ready : Client → Bool) (w : World) : World :=
  let (client, w1) := NewClient conn w
  let w2 := w1.emit [Event.connWrite conn cfg.WelcomeBanner, Event.connWrite conn cfg.NamePrompt]
  match getName cfg lib client lines w2 with
  | (Except.error err, w3) =>
    w3.emit [Event.connWrite conn (err ++ "\n".toList), Event.connClose conn]
  | (Except.ok name, w3) =>
    let client := { client with name := name }
    let w4 := register client w3
    let w5 := sendHistory client w4
    let joinMsg : Message :=
      { Time := now, From := "system".toList, Content := client.name ++ cfg.JoinedMessage }
    let w6 := broadcast ready joinMsg w5
    w6.emit [Event.spawn (Task.Read conn), Event.spawn (Task.Write conn)]

/-! ## Interleavings

The functions above run one task from start to end.  Below, the tasks of
several connections are interleaved; a step is one lock-protected region
together with the unlocked code around it, so every schedule of steps is an
execution of the program. -/

/-- The program point of the handler of one connection. -/
inductive Phase
  /-- The accept loop ran `go s.handleConnection(conn)`. -/
  | spawned
  /-- In the loop of `getName`, waiting for a line. -/
  | negotiating (client : Client)
  /-- After `client.name = name`, before the locked insertion. -/
  | named (client : Client)
  /-- After the locked insertion, before `sendHistory`. -/
  | inserted (client : Client)
  /-- After `sendHistory`, before the join notice. -/
  | replayed (client : Client)
  /-- The tasks `Read` and `Write` run. -/
  | active (client : Client)
  /-- The handler returned, or `Read` returned. -/
  | closed
deriving DecidableEq

/-- The server, the effects so far, and where every handler stands. -/
structure System where
  world : World
  phases : List (Nat × Phase)

/-- The program point of the handler of `conn`, if that connection was
accepted. -/
def System.phase (s : System) (conn : Nat) : Option Phase :=
  (s.phases.find? (fun e => e.1 = conn)).map Prod.snd

/-- Move the handler of `conn` to program point `p`. -/
def System.goto (s : System) (conn : Nat) (p : Phase) (w : World) : System :=
  { world := w, phases := (conn, p) :: s.phases.filter (fun e => e.1 ≠ conn) }

/-- The steps of an interleaved execution. -/
inductive Action
  /-- The accept loop accepts a new connection. -/
  | accept (conn : Nat)
  /-- The function `handleConnection` up to the call of `getName`. -/
  | start (conn : Nat)
  /-- One iteration of `getName` on a line read from the connection. -/
  | nameLine (conn : Nat) (line : Str)
  /-- The call `ReadString` fails in `getName`. -/
  | nameErr (conn : Nat)
  /-- The locked insertion of `handleConnection`. -/
  | insert (conn : Nat)
  /-- The call `s.sendHistory(client)`. -/
  | replay (conn : Nat)
  /-- The join notice and the two `go` statements of `handleConnection`. -/
  | join (conn : Nat) (now : Nat) (ready : Client → Bool)
  /-- One iteration of `Read` on a line read from the connection. -/
  | say (conn : Nat) (line : Line)
  /-- The call `ReadString` fails in `Read`: the deferred `removeClient`. -/
  | readErr (conn : Nat) (now : Nat) (ready : Client → Bool)

/-- One step of the system; a step that is not enabled changes nothing. -/
def step (cfg : Config) (lib : Lib) (s : System) : Action → System
  | Action.accept conn =>
    match s.phase conn with
    | none =>
      let w := acceptOne cfg conn s.world
      if (w.server.clients.length : Int) ≥ cfg.MaxClients then s.goto conn Phase.closed w
      else s.goto conn Phase.spawned w
    | some _ => s
  | Action.start conn =>
    match s.phase conn with
    | some Phase.spawned =>
      let (client, w1) := NewClient conn s.world
      s.goto conn (Phase.negotiating client)
        (w1.emit [Event.connWrite conn cfg.WelcomeBanner, Event.connWrite conn cfg.NamePrompt])
    | _ => s
  | Action.nameLine conn line =>
    match s.phase conn with
    | some (Phase.negotiating client) =>
      match getNameBody cfg lib client line s.world with
      | (some name, w) => s.goto conn (Phase.named { client with name := name }) w
      | (none, w) => s.goto conn (Phase.negotiating client) w
    | _ => s
  | Action.nameErr conn =>
    match s.phase conn with
    | some (Phase.negotiating _) =>
      s.goto conn Phase.closed
        (s.world.emit [Event.connWrite conn ("failed to read name".toList ++ "\n".toList),
                       Event.connClose conn])
    | _ => s
  | Action.insert conn =>
    match s.phase conn with
    | some (Phase.named client) => s.goto conn (Phase.inserted client) (register client s.world)
    | _ => s
  | Action.replay conn =>
    match s.phase conn with
    | some (Phase.inserted client) =>
      s.goto conn (Phase.replayed client) (sendHistory client s.world)
    | _ => s
  | Action.join conn now ready =>
    match s.phase conn with
    | some (Phase.replayed client) =>
      let joinMsg : Message :=
        { Time := now, From := "system".toList, Content := client.name ++ cfg.JoinedMessage }
      s.goto conn (Phase.active client)
        ((broadcast ready joinMsg s.world).emit
          [Event.spawn (Task.Read conn), Event.spawn (Task.Write conn)])
    | _ => s
  | Action.say conn line =>
    match s.phase conn with
    | some (Phase.active client) => s.goto conn (Phase.active client) (readLoop client [line] s.world)
    | _ => s
  | Action.readErr conn now ready =>
    match s.phase conn with
    | some (Phase.active client) =>
      s.goto conn Phase.closed (removeClient cfg now ready client s.world)
    | _ => s

/-- Run a schedule. -/
def run (cfg : Config) (lib : Lib) (s : System) (schedule : List Action) : System :=
  schedule.foldl (step cfg lib) s

/-- The system when `main` has called `NewServer`. -/
def boot (port : Int) : System :=
  { world := { server := NewServer port, trace := [] }, phases := [] }

/-! ## The consumers of an outbound queue -/

/-- The tasks that receive from the channel of one client: the workers that
`NewClient` starts, and `Client.Write`. -/
inductive Consumer
  | worker (i : Nat)
  | writer
deriving DecidableEq

/-- The layout a consumer formats the time with: `messageWorker` uses a
literal, `Write` uses `config.TimeFormat`. -/
def Consumer.layout (cfg : Config) : Consumer → Str
  | Consumer.worker _ => "2006-01-02 15:04:05".toList
  | Consumer.writer => cfg.TimeFormat

/-- Delivery on one connection: `queue` holds the messages the senders hand
to the unbuffered channel, in the order of the sends; `holding` is, per
consumer, the message it has received and not yet written; `written` is
what reached the connection. -/
structure Delivery where
  queue : List Message
  holding : List (Consumer × Message)
  written : List Str
deriving DecidableEq

/-- The two halves of the loop body of a consumer: the receive of
`for msg := range c.outgoing`, and the formatting and `c.conn.Write`. -/
inductive ConsumerStep
  /-- Consumer `k` receives the next message from the channel. -/
  | receive (k : Consumer)
  /-- Consumer `k` formats the message it holds and writes it. -/
  | write (k : Consumer)

/-- One step of delivery; a step that is not enabled changes nothing. -/
def Delivery.step (cfg : Config) (lib : Lib) (d : Delivery) : ConsumerStep → Delivery
  | ConsumerStep.receive k =>
    match d.queue, d.holding.lookup k with
    | msg :: rest, none => { d with queue := rest, holding := (k, msg) :: d.holding }
    | _, _ => d
  | ConsumerStep.write k =>
    match d.holding.lookup k with
    | some msg =>
      { d with holding := d.holding.filter (fun e => e.1 ≠ k),
               written := d.written ++
                 [FormatMessage (lib.format (k.layout cfg) msg.Time) msg.From msg.Content] }
    | none => d

/-- Run the consumers of one connection on the messages `queue`. -/
def deliver (cfg : Config) (lib : Lib) (queue : List Message) (schedule : List ConsumerStep) :
    Delivery :=
  schedule.foldl (Delivery.step cfg lib) { queue := queue, holding := [], written := [] }

/-! ## Definitions used to state the properties -/

/-- The characters a name may contain, listed one by one: the ASCII letters,
the ASCII digits, underscore and hyphen. -/
def allowedRunes : List Char :=
  "ABCDEFGHIJKLMNOPQRSTUVWXYZabcdefghijklmnopqrstuvwxyz0123456789_-".toList

/-- The keys of the registry are pairwise distinct under `NormalizeName`. -/
def NamesDistinct (lib : Lib) (srv : Server) : Prop :=
  (srv.clients.map (fun e => NormalizeName lib e.1)).Nodup

instance (lib : Lib) (srv : Server) : Decidable (NamesDistinct lib srv) := by
  unfold NamesDistinct; infer_instance

/-- Every entry of the registry is stored under the name of its client. -/
def KeysAreNames (srv : Server) : Prop :=
  ∀ e ∈ srv.clients, e.2.name = e.1

instance (srv : Server) : Decidable (KeysAreNames srv) := by
  unfold KeysAreNames; infer_instance

/-- The message that corresponds to a line read by `Read`: none when the
line is empty after trimming, otherwise the trimmed line under the name of
the client. -/
def lineMessage (c : Client) (l : Line) : Option Message :=
  if TrimSpace l.text = [] then none
  else some { Time := l.now, From := c.name, Content := TrimSpace l.text }

/-- The departure notice for `client` at clock reading `now`. -/
def leaveNotice (cfg : Config) (now : Nat) (client : Client) : Message :=
  { Time := now, From := "system".toList, Content := client.name ++ cfg.LeftMessage }

/-- Whether an event starts a task that receives from the channel of the
client on `conn`: `messageWorker` and `Write` both `range` over it. -/
def startsConsumer (conn : Nat) : Event → Bool
  | Event.spawn (Task.messageWorker c) => decide (c = conn)
  | Event.spawn (Task.Write c) => decide (c = conn)
  | _ => false

/-- The number of tasks started so far that receive from the channel of the
client on `conn`. -/
def consumers (conn : Nat) (trace : List Event) : Nat :=
  (trace.filter (startsConsumer conn)).length

/-! ## Sample values and schedules -/

/-- Modelled from the spec: sample values for the constants of the `config`
package (which are not available), with the wording `has joined` and
`has left` of the protocol description.  Used to evaluate concrete
executions only. -/
def sampleConfig : Config :=
  { MaxClients := 10
    WelcomeBanner := "Welcome to TCP-Chat!\n".toList
    NamePrompt := "[ENTER YOUR NAME]: ".toList
    EmptyNameError := "invalid name".toList
    FullServerError := "server full".toList
    JoinedMessage := " has joined".toList
    LeftMessage := " has left".toList
    TimeFormat := "2006-01-02 15:04:05".toList }

/-- The sample configuration with room for one client. -/
def fullConfig : Config := { sampleConfig with MaxClients := 1 }

/-- A library instance for evaluating concrete executions whose names are
ASCII: there `unicodeLower` is never consulted. -/
def sampleLib : Lib :=
  { unicodeLower := fun c => c, format := fun _ t => Nat.toDigits 10 t }

/-- Every recipient has a receiver ready. -/
def allReady : Client → Bool := fun _ => true

/-- The client object of Alice. -/
def alice : Client := { conn := 1, name := "alice".toList, workers := 10 }

/-- The client object of Bob. -/
def bob : Client := { conn := 2, name := "bob".toList, workers := 10 }

/-- A world in which only Alice is registered. -/
def oneClient : World :=
  { server := { port := 8989, clients := [("alice".toList, alice)], messages := [] },
    trace := [] }

/-- A world in which Alice and Bob are registered. -/
def twoClients : World :=
  { server := { port := 8989,
                clients := [("alice".toList, alice), ("bob".toList, bob)],
                messages := [] },
    trace := [] }

/-- Two connections negotiate at the same time: both pass the collision
check before either is inserted. -/
def raceSchedule : List Action :=
  [Action.accept 1, Action.accept 2, Action.start 1, Action.start 2,
   Action.nameLine 1 "alice\n".toList, Action.nameLine 2 "Alice\n".toList,
   Action.insert 1, Action.insert 2]

/-- Alice is active and has said one line; Bob negotiates and is inserted. -/
def joinSchedule : List Action :=
  [Action.accept 1, Action.start 1, Action.nameLine 1 "alice\n".toList, Action.insert 1,
   Action.replay 1, Action.join 1 100 allReady,
   Action.say 1 { text := "first\n".toList, now := 101, ready := allReady },
   Action.accept 2, Action.start 2, Action.nameLine 2 "bob\n".toList, Action.insert 2]

/-- Alice says a second line after Bob was inserted and before Bob is
replayed the history. -/
def lateLine : Action :=
  Action.say 1 { text := "second\n".toList, now := 102, ready := allReady }

/-! # Theorems -/

/-! ## Protocol helpers -/

theorem validRunes_iff (s : Str) : validRunes s = true ↔ ∀ c ∈ s, nameChar c = true := by
  induction s with
  | nil => simp [validRunes]
  | cons c rest ih =>
    cases h : nameChar c <;> simp [validRunes, h, ih]

theorem nameChar_of_mem_allowed : ∀ c ∈ allowedRunes, nameChar c = true := by
  decide

theorem mem_allowed_of_nameChar (c : Char) (h : nameChar c = true) : c ∈ allowedRunes := by
  have hc : c = Char.ofNat c.toNat := (Char.ofNat_toNat c).symm
  simp only [nameChar, Bool.or_eq_true, Bool.and_eq_true, decide_eq_true_eq, beq_iff_eq] at h
  rw [hc]
  generalize c.toNat = n at h
  have hn : n ≤ 122 := by omega
  interval_cases n <;> first | (exfalso; omega) | decide

theorem dropWhile_append_left {p : Char → Bool} (pre l : Str) (h : ∀ c ∈ pre, p c = true) :
    (pre ++ l).dropWhile p = l.dropWhile p := by
  induction pre with
  | nil => rfl
  | cons a pre ih =>
    have ha : p a = true := h a (List.mem_cons_self _ _)
    have ih2 := ih (fun c hc => h c (List.mem_cons_of_mem _ hc))
    simp [List.dropWhile, ha, ih2]

theorem dropWhile_eq_self_of_head {p : Char → Bool} (l : Str)
    (h : ∀ c, l.head? = some c → p c = false) : l.dropWhile p = l := by
  cases l with
  | nil => rfl
  | cons a l =>
    have ha : p a = false := h a rfl
    simp [List.dropWhile, ha]

theorem TrimSpace_of_core (pre t post : Str)
    (hpre : ∀ c ∈ pre, isSpace c = true) (hpost : ∀ c ∈ post, isSpace c = true)
    (hhead : ∀ c, t.head? = some c → isSpace c = false)
    (hlast : ∀ c, t.getLast? = some c → isSpace c = false) :
    TrimSpace (pre ++ t ++ post) = t := by
  unfold TrimSpace
  rw [List.append_assoc, dropWhile_append_left pre _ hpre]
  by_cases ht : t = []
  · subst ht
    simp only [List.nil_append]
    have h1 : post.dropWhile isSpace = [] := by
      rw [List.dropWhile_eq_nil_iff]; exact hpost
    simp [h1]
  · have h2 : (t ++ post).dropWhile isSpace = t ++ post := by
      apply dropWhile_eq_self_of_head
      intro c hc
      apply hhead
      cases t with
      | nil => exact absurd rfl ht
      | cons a t => simpa using hc
    rw [h2, List.reverse_append,
      dropWhile_append_left post.reverse _ (fun c hc => hpost c (List.mem_reverse.mp hc))]
    rw [dropWhile_eq_self_of_head, List.reverse_reverse]
    intro c hc
    apply hlast
    simpa [List.head?_reverse] using hc

theorem head_dropWhile_isSpace (l : Str) (c : Char)
    (h : (l.dropWhile isSpace).head? = some c) : isSpace c = false := by
  have := List.head?_dropWhile_not isSpace l
  rw [h] at this
  simpa using this

theorem getLast_suffix {l1 l2 : Str} (h : l1 <:+ l2) (hne : l1 ≠ []) :
    l1.getLast? = l2.getLast? := by
  obtain ⟨t, rfl⟩ := h
  cases l1 with
  | nil => exact absurd rfl hne
  | cons a l =>
    rw [List.getLast?_append]
    cases h : (a :: l).getLast? with
    | none => simp at h
    | some x => rfl

theorem TrimSpace_decomp (s : Str) :
    ∃ pre post, s = pre ++ TrimSpace s ++ post ∧
      (∀ c ∈ pre, isSpace c = true) ∧ (∀ c ∈ post, isSpace c = true) ∧
      (∀ c, (TrimSpace s).head? = some c → isSpace c = false) ∧
      (∀ c, (TrimSpace s).getLast? = some c → isSpace c = false) := by
  refine ⟨s.takeWhile isSpace, (((s.dropWhile isSpace).reverse).takeWhile isSpace).reverse,
    ?_, ?_, ?_, ?_, ?_⟩
  · unfold TrimSpace
    rw [List.append_assoc, ← List.reverse_append, List.takeWhile_append_dropWhile,
      List.reverse_reverse, List.takeWhile_append_dropWhile]
  · intro c hc
    exact List.mem_takeWhile_imp hc
  · intro c hc
    exact List.mem_takeWhile_imp (List.mem_reverse.mp hc)
  · intro c hc
    unfold TrimSpace at hc
    rw [List.head?_reverse] at hc
    by_cases hne : ((s.dropWhile isSpace).reverse.dropWhile isSpace) = []
    · rw [hne] at hc; simp at hc
    · rw [getLast_suffix (List.dropWhile_suffix _) hne, List.getLast?_reverse] at hc
      exact head_dropWhile_isSpace s c hc
  · intro c hc
    unfold TrimSpace at hc
    rw [List.getLast?_reverse] at hc
    exact head_dropWhile_isSpace _ c hc

theorem TrimSpace_idem (s : Str) : TrimSpace (TrimSpace s) = TrimSpace s := by
  obtain ⟨_, _, _, _, _, hh, hl⟩ := TrimSpace_decomp s
  have := TrimSpace_of_core [] (TrimSpace s) [] (by simp) (by simp) hh hl
  simpa using this

theorem isSpace_not_nameChar (c : Char) (h : nameChar c = true) : isSpace c = false := by
  have := mem_allowed_of_nameChar c h
  revert c
  have : ∀ c ∈ allowedRunes, isSpace c = false := by decide
  intro c _ hc
  exact this c hc

/-- The trimmed form of `ValidateName`: the loop accepts exactly the listed
characters. -/
theorem ValidateName_trim_iff (s : Str) :
    ValidateName s = true ↔
      TrimSpace s ≠ [] ∧ ∀ c ∈ TrimSpace s, c ∈ allowedRunes := by
  unfold ValidateName
  by_cases h : TrimSpace s = []
  · simp [h]
  · simp only [h, if_false, ne_eq, not_false_eq_true, true_and, validRunes_iff]
    constructor
    · intro hv c hc
      exact mem_allowed_of_nameChar c (hv c hc)
    · intro hv c hc
      exact nameChar_of_mem_allowed c (hv c hc)

/-- C3: `ValidateName s` is true exactly when `s` with its leading and
trailing white space removed is non-empty and every character of it is an
ASCII letter, an ASCII digit, an underscore or a hyphen.  The second part
says what the removal is: `s` is white space, then `TrimSpace s`, then white
space, and `TrimSpace s` neither starts nor ends with white space. -/
theorem ValidateName_iff (s : Str) :
    (ValidateName s = true ↔
      TrimSpace s ≠ [] ∧ ∀ c ∈ TrimSpace s, c ∈ allowedRunes) ∧
    (∃ pre post, s = pre ++ TrimSpace s ++ post ∧
      (∀ c ∈ pre, isSpace c = true) ∧ (∀ c ∈ post, isSpace c = true) ∧
      (∀ c, (TrimSpace s).head? = some c → isSpace c = false) ∧
      (∀ c, (TrimSpace s).getLast? = some c → isSpace c = false)) :=
  ⟨ValidateName_trim_iff s, TrimSpace_decomp s⟩

/-! ## Name negotiation -/

theorem broadcast_server (ready : Client → Bool) (msg : Message) (w : World) :
    (broadcast ready msg w).server =
      { w.server with messages := w.server.messages ++ [msg] } := rfl

theorem getNameBody_server (cfg : Config) (lib : Lib) (c : Client) (line : Str) (w : World) :
    (getNameBody cfg lib c line w).2.server = w.server := by
  unfold getNameBody
  simp only
  split
  · rfl
  · split <;> rfl

theorem getNameBody_isSome (cfg : Config) (lib : Lib) (c : Client) (line : Str) (w : World) :
    (getNameBody cfg lib c line w).1.isSome = true ↔
      (ValidateName (TrimSpace line) = true ∧
        ∀ e ∈ w.server.clients, NormalizeName lib e.1 ≠ NormalizeName lib (TrimSpace line)) := by
  unfold getNameBody
  simp only
  cases hv : ValidateName (TrimSpace line)
  · simp
  · cases hx : (w.server.clients.any
        (fun e => decide (NormalizeName lib e.1 = NormalizeName lib (TrimSpace line))))
    · simp only [Bool.not_true, Bool.false_eq_true, ↓reduceIte, Option.isSome_some, true_iff, true_and]
      intro e he heq
      have : (w.server.clients.any
        (fun e => decide (NormalizeName lib e.1 = NormalizeName lib (TrimSpace line)))) = true :=
        List.any_eq_true.mpr ⟨e, he, by simpa using heq⟩
      rw [hx] at this
      cases this
    · simp only [Bool.not_true, Bool.false_eq_true, ↓reduceIte, Option.isSome_none, true_and]
      obtain ⟨e, he, heq⟩ := List.any_eq_true.mp hx
      constructor
      · intro h; cases h
      · intro h; exact absurd (by simpa using heq) (h e he)

theorem getNameBody_name (cfg : Config) (lib : Lib) (c : Client) (line : Str) (w : World)
    (name : Str) (h : (getNameBody cfg lib c line w).1 = some name) : name = TrimSpace line := by
  unfold getNameBody at h
  simp only at h
  split at h
  · cases h
  · split at h
    · cases h
    · simpa using h.symm

theorem getNameBody_world_of_some (cfg : Config) (lib : Lib) (c : Client) (line : Str)
    (w : World) (name : Str) (h : (getNameBody cfg lib c line w).1 = some name) :
    (getNameBody cfg lib c line w).2 = w := by
  unfold getNameBody at h ⊢
  simp only at h ⊢
  split at h
  · cases h
  · split at h
    · cases h
    · rename_i h1 h2
      simp only [h1, h2, if_false]
      rfl

theorem getNameBody_reprompt (cfg : Config) (lib : Lib) (c : Client) (line : Str) (w : World)
    (h : (getNameBody cfg lib c line w).1 = none) :
    ∃ notice, (getNameBody cfg lib c line w).2.trace =
      w.trace ++ [Event.connWrite c.conn notice, Event.connWrite c.conn cfg.NamePrompt] := by
  unfold getNameBody at h ⊢
  simp only at h ⊢
  split
  · exact ⟨_, rfl⟩
  · rename_i h1
    split
    · exact ⟨_, rfl⟩
    · rename_i h2
      simp [h1, h2] at h

/-- C2: for every registry and every line read during name negotiation,
`getName` returns on that line exactly when the trimmed line passes
`ValidateName` and no registered name has the same `NormalizeName` as the
trimmed line; the name returned is the trimmed line as typed and nothing
else changes; on a rejection the registry and history are unchanged, a
notice and the prompt are written, and the loop goes on with the next line.  With `alice` registered, the line `Alice`
is rejected and the line `bob` is accepted. -/
theorem getName_accepts_iff (cfg : Config) (lib : Lib) (c : Client) (line : Str) (w : World) :
    ((getNameBody cfg lib c line w).1.isSome = true ↔
      (ValidateName (TrimSpace line) = true ∧
        ∀ e ∈ w.server.clients, NormalizeName lib e.1 ≠ NormalizeName lib (TrimSpace line))) ∧
    (∀ name, (getNameBody cfg lib c line w).1 = some name →
      name = TrimSpace line ∧
      ∀ rest, getName cfg lib c (line :: rest) w = (Except.ok (TrimSpace line), w)) ∧
    ((getNameBody cfg lib c line w).1 = none →
      (getNameBody cfg lib c line w).2.server = w.server ∧
      (∃ notice, (getNameBody cfg lib c line w).2.trace =
        w.trace ++ [Event.connWrite c.conn notice, Event.connWrite c.conn cfg.NamePrompt]) ∧
      ∀ rest, getName cfg lib c (line :: rest) w =
        getName cfg lib c rest (getNameBody cfg lib c line w).2) ∧
    (∀ (a : Client) (port : Int) (history : List Message) (trace : List Event),
      (getNameBody cfg lib c "Alice\n".toList
        { server := { port := port, clients := [("alice".toList, a)], messages := history },
          trace := trace }).1 = none ∧
      (getNameBody cfg lib c "bob\n".toList
        { server := { port := port, clients := [("alice".toList, a)], messages := history },
          trace := trace }).1 = some "bob".toList) := by
  refine ⟨getNameBody_isSome cfg lib c line w, ?_, ?_, ?_⟩
  · intro name h
    have hn := getNameBody_name cfg lib c line w name h
    refine ⟨hn, fun rest => ?_⟩
    have hw := getNameBody_world_of_some cfg lib c line w name h
    have hp : getNameBody cfg lib c line w = (some name, w) := Prod.ext h hw
    simp only [getName, hp, hn]
  · intro h
    refine ⟨getNameBody_server cfg lib c line w, getNameBody_reprompt cfg lib c line w h,
      fun rest => ?_⟩
    have hp : getNameBody cfg lib c line w = (none, (getNameBody cfg lib c line w).2) :=
      Prod.ext h rfl
    rw [getName, hp]
  · intro a port history trace
    constructor
    · rfl
    · rfl

theorem getName_accepts_iff_witness :
    (getNameBody sampleConfig sampleLib alice "Alice\n".toList oneClient).1 = none ∧
    (getNameBody sampleConfig sampleLib alice "bob\n".toList oneClient).1 = some "bob".toList :=
  (getName_accepts_iff sampleConfig sampleLib alice [] oneClient).2.2.2 alice 8989 [] []

theorem getName_server (cfg : Config) (lib : Lib) (c : Client) (lines : List Str) (w : World) :
    (getName cfg lib c lines w).2.server = w.server := by
  induction lines generalizing w with
  | nil => rfl
  | cons line rest ih =>
    have hw := getNameBody_server cfg lib c line w
    unfold getName
    split
    · rename_i n w1 heq
      rw [heq] at hw
      exact hw
    · rename_i w1 heq
      rw [heq] at hw
      rw [ih, hw]

theorem getName_ok (cfg : Config) (lib : Lib) (c : Client) (lines : List Str) (w w3 : World)
    (name : Str) (h : getName cfg lib c lines w = (Except.ok name, w3)) :
    w3.server = w.server ∧
    ValidateName name = true ∧
    ∀ e ∈ w.server.clients, NormalizeName lib e.1 ≠ NormalizeName lib name := by
  induction lines generalizing w with
  | nil => simp [getName] at h
  | cons line rest ih =>
    unfold getName at h
    split at h
    · rename_i n w1 heq
      have h1 : (getNameBody cfg lib c line w).1 = some n := by rw [heq]
      have hn := getNameBody_name cfg lib c line w n h1
      have hs := (getNameBody_isSome cfg lib c line w).mp (by rw [h1]; rfl)
      have hw := getNameBody_server cfg lib c line w
      rw [heq] at hw
      simp only [Prod.mk.injEq, Except.ok.injEq] at h
      obtain ⟨hname, hw3⟩ := h
      subst hname hw3
      rw [hn]
      exact ⟨hw, hs.1, hs.2⟩
    · rename_i w1 heq
      have hw := getNameBody_server cfg lib c line w
      rw [heq] at hw
      have := ih w1 h
      rw [hw] at this
      exact this

/-! ## The registry as a map -/

theorem mapGet_mapDelete_self (m : List (Str × Client)) (k : Str) :
    mapGet (mapDelete m k) k = none := by
  unfold mapGet mapDelete
  rw [Option.map_eq_none', List.find?_eq_none]
  intro e he
  have := (List.mem_filter.mp he).2
  simpa using this

theorem mapGet_mapDelete_ne (m : List (Str × Client)) (k k2 : Str) (h : k2 ≠ k) :
    mapGet (mapDelete m k) k2 = mapGet m k2 := by
  unfold mapGet mapDelete
  induction m with
  | nil => rfl
  | cons e rest ih =>
    by_cases he : e.1 = k
    · have hne : ¬ e.1 = k2 := fun h2 => h (h2.symm.trans he)
      rw [List.filter_cons_of_neg (by simpa using he),
        List.find?_cons_of_neg _ (by simpa using hne)]
      exact ih
    · rw [List.filter_cons_of_pos (by simpa using he)]
      by_cases he2 : e.1 = k2
      · rw [List.find?_cons_of_pos _ (by simpa using he2),
          List.find?_cons_of_pos _ (by simpa using he2)]
      · rw [List.find?_cons_of_neg _ (by simpa using he2),
          List.find?_cons_of_neg _ (by simpa using he2)]
        exact ih

theorem mem_mapSet (m : List (Str × Client)) (k : Str) (v : Client) (e : Str × Client)
    (h : e ∈ mapSet m k v) : e ∈ m ∨ e = (k, v) := by
  induction m with
  | nil =>
    simp only [mapSet, List.mem_singleton] at h
    exact Or.inr h
  | cons e0 rest ih =>
    obtain ⟨k0, v0⟩ := e0
    unfold mapSet at h
    split at h
    · rcases List.mem_cons.mp h with h1 | h1
      · exact Or.inr h1
      · exact Or.inl (List.mem_cons_of_mem _ h1)
    · rcases List.mem_cons.mp h with h1 | h1
      · exact Or.inl (h1 ▸ List.mem_cons_self _ _)
      · rcases ih h1 with h2 | h2
        · exact Or.inl (List.mem_cons_of_mem _ h2)
        · exact Or.inr h2

theorem mapSet_absent (m : List (Str × Client)) (k : Str) (v : Client)
    (h : ∀ e ∈ m, e.1 ≠ k) : mapSet m k v = m ++ [(k, v)] := by
  induction m with
  | nil => rfl
  | cons e0 rest ih =>
    obtain ⟨k0, v0⟩ := e0
    have h0 : k0 ≠ k := h (k0, v0) (List.mem_cons_self _ _)
    simp only [mapSet, h0, if_false, List.cons_append]
    rw [ih (fun e he => h e (List.mem_cons_of_mem _ he))]

/-! ## Removal -/

theorem removeClient_noop_of_absent (cfg : Config) (now : Nat) (ready : Client → Bool)
    (c : Client) (w : World) (h : mapGet w.server.clients c.name = none) :
    removeClient cfg now ready c w = w := by
  unfold removeClient
  rw [h]

theorem removeClient_eq_of_present (cfg : Config) (now : Nat) (ready : Client → Bool)
    (c x : Client) (w : World) (h : mapGet w.server.clients c.name = some x) :
    removeClient cfg now ready c w =
      { server := { w.server with
                    clients := mapDelete w.server.clients c.name
                    messages := w.server.messages ++ [leaveNotice cfg now c] },
        trace := w.trace ++ [Event.chanClose c, Event.connClose c.conn] ++
          (mapDelete w.server.clients c.name).map
            (fun e => Event.chanTry e.2 (leaveNotice cfg now c) (ready e.2)) } := by
  unfold removeClient
  rw [h]
  simp [broadcast, leaveNotice, List.map_map, Function.comp]

theorem removeClient_clients (cfg : Config) (now : Nat) (ready : Client → Bool)
    (c : Client) (w : World) :
    (removeClient cfg now ready c w).server.clients = mapDelete w.server.clients c.name := by
  cases h : mapGet w.server.clients c.name with
  | none =>
    rw [removeClient_noop_of_absent cfg now ready c w h]
    unfold mapDelete
    symm
    rw [List.filter_eq_self]
    intro e he
    unfold mapGet at h
    rw [Option.map_eq_none', List.find?_eq_none] at h
    simpa using h e he
  | some x => rw [removeClient_eq_of_present cfg now ready c x w h]

theorem removeClient_messages (cfg : Config) (now : Nat) (ready : Client → Bool)
    (c : Client) (w : World) :
    (removeClient cfg now ready c w).server.messages =
      w.server.messages ++
        (if (mapGet w.server.clients c.name).isSome then [leaveNotice cfg now c] else []) := by
  cases h : mapGet w.server.clients c.name with
  | none => rw [removeClient_noop_of_absent cfg now ready c w h]; simp
  | some x => rw [removeClient_eq_of_present cfg now ready c x w h]; simp

/-- C6: when `c` is the client registered under `c.name`, `removeClient c`
removes exactly that key and leaves every other entry as it was, closes the
channel and the connection of `c`, appends exactly one message from `system`
with content `c.name` followed by the left-message text, and offers that
notice to the clients that remain registered, none of which is `c`. -/
theorem removeClient_registered (cfg : Config) (now : Nat) (ready : Client → Bool)
    (c : Client) (w : World)
    (hname : KeysAreNames w.server)
    (hreg : mapGet w.server.clients c.name = some c) :
    mapGet (removeClient cfg now ready c w).server.clients c.name = none ∧
    (∀ k, k ≠ c.name →
      mapGet (removeClient cfg now ready c w).server.clients k = mapGet w.server.clients k) ∧
    (removeClient cfg now ready c w).server.clients =
      w.server.clients.filter (fun e => e.1 ≠ c.name) ∧
    (removeClient cfg now ready c w).server.messages =
      w.server.messages ++
        [{ Time := now, From := "system".toList, Content := c.name ++ cfg.LeftMessage }] ∧
    (removeClient cfg now ready c w).trace =
      w.trace ++ [Event.chanClose c, Event.connClose c.conn] ++
        (removeClient cfg now ready c w).server.clients.map
          (fun e => Event.chanTry e.2
            { Time := now, From := "system".toList, Content := c.name ++ cfg.LeftMessage }
            (ready e.2)) ∧
    (∀ e ∈ (removeClient cfg now ready c w).server.clients, e.2 ≠ c) := by
  rw [removeClient_eq_of_present cfg now ready c c w hreg]
  refine ⟨mapGet_mapDelete_self _ _, fun k hk => mapGet_mapDelete_ne _ _ _ hk, rfl, rfl, rfl, ?_⟩
  intro e he hec
  have hmem := List.mem_filter.mp he
  have h1 : e.1 ≠ c.name := by simpa using hmem.2
  exact h1 ((hname e hmem.1).symm.trans (by rw [hec]))

theorem removeClient_registered_witness :
    mapGet twoClients.server.clients alice.name = some alice ∧
    (removeClient sampleConfig 7 allReady alice twoClients).server.clients =
      [("bob".toList, bob)] ∧
    (removeClient sampleConfig 7 allReady alice twoClients).server.messages =
      [{ Time := 7, From := "system".toList, Content := "alice has left".toList }] :=
  ⟨by decide,
   (removeClient_registered sampleConfig 7 allReady alice twoClients
      (by decide) (by decide)).2.2.1,
   (removeClient_registered sampleConfig 7 allReady alice twoClients
      (by decide) (by decide)).2.2.2.1⟩

/-- C8: for a client whose name is not a key of the registry, `removeClient`
changes nothing at all (registry, history and trace of effects are the same:
no channel closed, no notice offered); and calling `removeClient` twice in a
row on the same client gives the same world as calling it once. -/
theorem removeClient_absent (cfg : Config) :
    (∀ (now : Nat) (ready : Client → Bool) (c : Client) (w : World),
      mapGet w.server.clients c.name = none → removeClient cfg now ready c w = w) ∧
    (∀ (now1 now2 : Nat) (ready1 ready2 : Client → Bool) (c : Client) (w : World),
      removeClient cfg now2 ready2 c (removeClient cfg now1 ready1 c w) =
        removeClient cfg now1 ready1 c w) := by
  refine ⟨fun now ready c w h => removeClient_noop_of_absent cfg now ready c w h, ?_⟩
  intro now1 now2 ready1 ready2 c w
  apply removeClient_noop_of_absent
  cases h : mapGet w.server.clients c.name with
  | none => rw [removeClient_noop_of_absent cfg now1 ready1 c w h]; exact h
  | some x =>
    rw [removeClient_eq_of_present cfg now1 ready1 c x w h]
    exact mapGet_mapDelete_self _ _

theorem removeClient_absent_witness :
    mapGet oneClient.server.clients bob.name = none ∧
    removeClient sampleConfig 7 allReady bob oneClient = oneClient :=
  ⟨by decide, (removeClient_absent sampleConfig).1 7 allReady bob oneClient (by decide)⟩

/-! ## The inbound and outbound loops -/

theorem readLoop_messages (c : Client) (lines : List Line) (w : World) :
    (readLoop c lines w).server.messages =
      w.server.messages ++ lines.filterMap (lineMessage c) := by
  induction lines generalizing w with
  | nil => simp [readLoop]
  | cons l rest ih =>
    unfold readLoop
    simp only
    by_cases h : TrimSpace l.text = []
    · rw [if_pos h, ih, List.filterMap_cons]
      simp [lineMessage, h]
    · rw [if_neg h, ih, List.filterMap_cons]
      simp [lineMessage, h, broadcast]

theorem readLoop_clients (c : Client) (lines : List Line) (w : World) :
    (readLoop c lines w).server.clients = w.server.clients := by
  induction lines generalizing w with
  | nil => rfl
  | cons l rest ih =>
    unfold readLoop
    simp only
    split
    · exact ih w
    · rw [ih]; rfl

theorem lineMessage_congr (c : Client) (l1 l2 : Line) (ht : l1.text = l2.text)
    (hn : l1.now = l2.now) : lineMessage c l1 = lineMessage c l2 := by
  unfold lineMessage
  rw [ht, hn]

theorem filterMap_lineMessage_congr (c : Client) (lines1 lines2 : List Line)
    (h : lines1.map (fun l => (l.text, l.now)) = lines2.map (fun l => (l.text, l.now))) :
    lines1.filterMap (lineMessage c) = lines2.filterMap (lineMessage c) := by
  induction lines1 generalizing lines2 with
  | nil =>
    cases lines2 with
    | nil => rfl
    | cons l rest => simp at h
  | cons l1 rest1 ih =>
    cases lines2 with
    | nil => simp at h
    | cons l2 rest2 =>
      simp only [List.map_cons, List.cons.injEq, Prod.mk.injEq] at h
      obtain ⟨⟨ht, hn⟩, hrest⟩ := h
      rw [List.filterMap_cons, List.filterMap_cons, lineMessage_congr c l1 l2 ht hn,
        ih rest2 hrest]

/-- C4: after the loop of `Read` has handled a finite sequence of lines, the
history is the history before it followed by one message per line that is
non-empty after trimming, in the order read, each under the name of the
client and with the trimmed line as content; this does not depend on which
recipients take the message: two runs on the same lines and clock readings
with different `ready` answers end with the same history.  The loop leaves
the registry alone.  The last part says what follows the loop: when the read
fails, the deferred `removeClient` adds the departure notice if the name is
still registered. -/
theorem readLoop_history (cfg : Config) (c : Client) (lines : List Line) (w : World) :
    (readLoop c lines w).server.messages =
      w.server.messages ++ lines.filterMap (lineMessage c) ∧
    (∀ lines2 : List Line,
      lines2.map (fun l => (l.text, l.now)) = lines.map (fun l => (l.text, l.now)) →
      (readLoop c lines2 w).server.messages = (readLoop c lines w).server.messages) ∧
    (readLoop c lines w).server.clients = w.server.clients ∧
    (∀ (now : Nat) (ready : Client → Bool),
      (Read cfg c lines now ready w).server.messages =
        w.server.messages ++ lines.filterMap (lineMessage c) ++
          (if (mapGet w.server.clients c.name).isSome then [leaveNotice cfg now c] else [])) := by
  have h1 := readLoop_messages c lines w
  have h2 := readLoop_clients c lines w
  refine ⟨h1, ?_, h2, fun now ready => ?_⟩
  · intro lines2 h
    rw [h1, readLoop_messages c lines2 w, filterMap_lineMessage_congr c lines2 lines h]
  · unfold Read
    rw [removeClient_messages, h1, h2]

theorem readLoop_history_witness :
    (Read sampleConfig alice
      [{ text := "hello\n".toList, now := 5, ready := allReady },
       { text := "  \n".toList, now := 6, ready := allReady }] 7 allReady twoClients).server.messages =
      [{ Time := 5, From := "alice".toList, Content := "hello".toList },
       { Time := 7, From := "system".toList, Content := "alice has left".toList }] :=
  (readLoop_history sampleConfig alice
      [{ text := "hello\n".toList, now := 5, ready := allReady },
       { text := "  \n".toList, now := 6, ready := allReady }] twoClients).2.2.2 7 allReady

/-- C7: the code on a terminal failure.  When a socket write fails in
`Write`, the function returns: the registry and the history are as before
(the client is still registered, no departure notice) and the only effect is
the failed write (no channel or connection is closed).  When the read fails
in `Read`, a registered client is removed and the departure notice is added
to the history. -/
theorem Write_error_removes_nothing (cfg : Config) (lib : Lib) (c : Client) :
    (∀ (msg : Message) (rest : List (Message × Bool)) (w : World),
      (Write cfg lib c ((msg, false) :: rest) w).server = w.server ∧
      (Write cfg lib c ((msg, false) :: rest) w).trace =
        w.trace ++ [Event.connWrite c.conn
          (FormatMessage (lib.format cfg.TimeFormat msg.Time) msg.From msg.Content)]) ∧
    (∀ (now : Nat) (ready : Client → Bool) (w : World),
      mapGet w.server.clients c.name = some c →
      mapGet (Read cfg c [] now ready w).server.clients c.name = none ∧
      (Read cfg c [] now ready w).server.messages =
        w.server.messages ++ [leaveNotice cfg now c]) := by
  constructor
  · intro msg rest w
    simp [Write, World.emit]
  · intro now ready w h
    have : Read cfg c [] now ready w = removeClient cfg now ready c w := rfl
    rw [this, removeClient_eq_of_present cfg now ready c c w h]
    exact ⟨mapGet_mapDelete_self _ _, rfl⟩

theorem Write_error_removes_nothing_witness :
    mapGet (Write sampleConfig sampleLib alice
      [({ Time := 5, From := "bob".toList, Content := "hi".toList }, false)]
      twoClients).server.clients "alice".toList = some alice ∧
    mapGet (Read sampleConfig alice [] 7 allReady twoClients).server.clients
      "alice".toList = none :=
  ⟨by rw [((Write_error_removes_nothing sampleConfig sampleLib alice).1 _ _ _).1]; decide,
   ((Write_error_removes_nothing sampleConfig sampleLib alice).2 7 allReady twoClients
      (by decide)).1⟩

/-- With `Write` as the only consumer and no write error, the lines reach
the connection in the order in which the messages were received. -/
theorem Write_alone_in_order (cfg : Config) (lib : Lib) (c : Client) (msgs : List Message)
    (w : World) :
    (Write cfg lib c (msgs.map (fun m => (m, true))) w).trace =
      w.trace ++ msgs.map (fun m => Event.connWrite c.conn
        (FormatMessage (lib.format cfg.TimeFormat m.Time) m.From m.Content)) := by
  induction msgs generalizing w with
  | nil => simp [Write]
  | cons m rest ih =>
    simp only [List.map_cons, Write, if_true]
    rw [ih]
    simp [World.emit]

/-! ## The accept loop -/

theorem acceptOne_server (cfg : Config) (conn : Nat) (w : World) :
    (acceptOne cfg conn w).server = w.server := by
  unfold acceptOne
  simp only
  split <;> rfl

/-- C9: when the registry holds at least `MaxClients` clients at the moment
a connection is accepted, the accept loop writes only the server-full notice
and closes the connection: these two are the only effects (no banner, no
prompt, no handler task), and the registry, its size and the history are
unchanged. -/
theorem acceptOne_full (cfg : Config) (conn : Nat) (w : World)
    (hfull : cfg.MaxClients ≤ (w.server.clients.length : Int)) :
    (acceptOne cfg conn w).server = w.server ∧
    (acceptOne cfg conn w).trace =
      w.trace ++ [Event.connWrite conn (cfg.FullServerError ++ "\n".toList),
                  Event.connClose conn] ∧
    (acceptOne cfg conn w).server.clients.length = w.server.clients.length ∧
    (∀ rest, acceptLoop cfg (some conn :: rest) w =
      acceptLoop cfg rest (acceptOne cfg conn w)) := by
  unfold acceptOne
  simp only [ge_iff_le, hfull, if_true]
  exact ⟨rfl, rfl, rfl, fun rest => by simp [acceptLoop, acceptOne, hfull]⟩

theorem acceptOne_full_witness :
    fullConfig.MaxClients ≤ (oneClient.server.clients.length : Int) ∧
    (acceptOne fullConfig 3 oneClient).server = oneClient.server ∧
    (acceptOne fullConfig 3 oneClient).trace =
      [Event.connWrite 3 "server full\n".toList, Event.connClose 3] :=
  ⟨by decide,
   (acceptOne_full fullConfig 3 oneClient (by decide)).1,
   (acceptOne_full fullConfig 3 oneClient (by decide)).2.1⟩

/-! ## What holds in every interleaving, and what holds without interference -/

theorem register_keysAreNames (client : Client) (w : World) (h : KeysAreNames w.server) :
    KeysAreNames (register client w).server := by
  intro e he
  rcases mem_mapSet _ _ _ _ he with h1 | h1
  · exact h e h1
  · rw [h1]

theorem step_keysAreNames (cfg : Config) (lib : Lib) (s : System) (a : Action)
    (h : KeysAreNames s.world.server) : KeysAreNames (step cfg lib s a).world.server := by
  cases a with
  | accept conn =>
    simp only [step]
    split
    · split <;> simp only [System.goto] <;> rw [acceptOne_server] <;> exact h
    · exact h
  | start conn =>
    simp only [step]
    split <;> exact h
  | nameLine conn line =>
    simp only [step]
    split
    · rename_i client _
      have hs := getNameBody_server cfg lib client line s.world
      split <;> rename_i heq <;> rw [heq] at hs <;> simp only [System.goto] <;> rw [hs] <;> exact h
    · exact h
  | nameErr conn =>
    simp only [step]
    split <;> exact h
  | insert conn =>
    simp only [step]
    split
    · exact register_keysAreNames _ _ h
    · exact h
  | replay conn =>
    simp only [step]
    split <;> exact h
  | join conn now ready =>
    simp only [step]
    split <;> exact h
  | say conn line =>
    simp only [step]
    split
    · simp only [System.goto]
      intro e he
      rw [readLoop_clients] at he
      exact h e he
    · exact h
  | readErr conn now ready =>
    simp only [step]
    split
    · simp only [System.goto]
      intro e he
      rw [removeClient_clients] at he
      exact h e (List.mem_filter.mp he).1
    · exact h

/-- In every state reachable from `NewServer`, every entry of the registry is
stored under the name of its client. -/
theorem run_keysAreNames (cfg : Config) (lib : Lib) (port : Int) (schedule : List Action) :
    KeysAreNames (run cfg lib (boot port) schedule).world.server := by
  suffices hgen : ∀ s : System, KeysAreNames s.world.server →
      KeysAreNames (run cfg lib s schedule).world.server by
    apply hgen
    intro e he
    simp [boot, NewServer] at he
  induction schedule with
  | nil => intro s hs; exact hs
  | cons a rest ih =>
    intro s hs
    exact ih (step cfg lib s a) (step_keysAreNames cfg lib s a hs)

theorem register_namesDistinct (lib : Lib) (client : Client) (w : World)
    (hd : NamesDistinct lib w.server)
    (hnew : ∀ e ∈ w.server.clients, NormalizeName lib e.1 ≠ NormalizeName lib client.name) :
    NamesDistinct lib (register client w).server := by
  unfold NamesDistinct register
  simp only
  rw [mapSet_absent _ _ _ (fun e he heq => hnew e he (by rw [heq]))]
  rw [List.map_append, List.nodup_append]
  refine ⟨hd, List.nodup_singleton _, ?_⟩
  intro x hx hx2
  simp only [List.map_cons, List.map_nil, List.mem_singleton] at hx2
  obtain ⟨e, he, rfl⟩ := List.mem_map.mp hx
  exact hnew e he hx2

/-- Run without interference, `handleConnection` keeps the names of the
registry pairwise distinct under `NormalizeName`. -/
theorem handleConnection_namesDistinct (cfg : Config) (lib : Lib) (conn : Nat)
    (lines : List Str) (now : Nat) (ready : Client → Bool) (w : World)
    (hd : NamesDistinct lib w.server) :
    NamesDistinct lib (handleConnection cfg lib conn lines now ready w).server := by
  unfold handleConnection
  simp only
  split
  · rename_i err w3 heq
    have hs := getName_server cfg lib (NewClient conn w).1 lines
      ((NewClient conn w).2.emit
        [Event.connWrite conn cfg.WelcomeBanner, Event.connWrite conn cfg.NamePrompt])
    rw [heq] at hs
    have hs2 : w3.server = w.server := hs
    show NamesDistinct lib w3.server
    rw [hs2]
    exact hd
  · rename_i name w3 heq
    have h := getName_ok cfg lib _ lines _ w3 name heq
    have hsrv : w3.server = w.server := h.1
    have hreg := register_namesDistinct lib
      { (NewClient conn w).1 with name := name } w3 (by rw [hsrv]; exact hd)
      (by rw [hsrv]; exact h.2.2)
    exact hreg

/-! ## Interleavings that break uniqueness and the replay -/

theorem trim_alice : TrimSpace ['a', 'l', 'i', 'c', 'e', '\n'] = ['a', 'l', 'i', 'c', 'e'] := by
  decide
theorem trim_bob : TrimSpace ['b', 'o', 'b', '\n'] = ['b', 'o', 'b'] := by decide
theorem trim_first : TrimSpace ['f', 'i', 'r', 's', 't', '\n'] = ['f', 'i', 'r', 's', 't'] := by
  decide
theorem trim_second :
    TrimSpace ['s', 'e', 'c', 'o', 'n', 'd', '\n'] = ['s', 'e', 'c', 'o', 'n', 'd'] := by
  decide
theorem valid_alice : ValidateName ['a', 'l', 'i', 'c', 'e'] = true := by decide
theorem trim_Alice : TrimSpace ['A', 'l', 'i', 'c', 'e', '\n'] = ['A', 'l', 'i', 'c', 'e'] := by
  decide
theorem valid_Alice : ValidateName ['A', 'l', 'i', 'c', 'e'] = true := by decide
theorem norm_Alice (lib : Lib) :
    NormalizeName lib ['A', 'l', 'i', 'c', 'e'] = ['a', 'l', 'i', 'c', 'e'] := rfl
theorem valid_bob : ValidateName ['b', 'o', 'b'] = true := by decide
theorem norm_alice (lib : Lib) :
    NormalizeName lib ['a', 'l', 'i', 'c', 'e'] = ['a', 'l', 'i', 'c', 'e'] := rfl
theorem norm_bob (lib : Lib) : NormalizeName lib ['b', 'o', 'b'] = ['b', 'o', 'b'] := rfl

theorem race_keys (lib : Lib) :
    (run sampleConfig lib (boot 8989) raceSchedule).world.server.clients.map Prod.fst =
      ["alice".toList, "Alice".toList] := by
  simp [run, raceSchedule, step, boot, System.phase, System.goto, acceptOne, NewServer,
    World.emit, sampleConfig, NewClient, getNameBody, register, mapSet, trim_alice, trim_Alice,
    valid_alice, valid_Alice]

/-- C1: the code at the failing schedule.  Two connections are accepted and
both pass the collision check of `getName` on an empty registry, with the
lines `alice` and `Alice`, before either is inserted; after both insertions
the registry has two keys with the same `NormalizeName`. -/
theorem race_registers_colliding_names (lib : Lib) :
    (run sampleConfig lib (boot 8989) raceSchedule).world.server.clients.map Prod.fst =
      ["alice".toList, "Alice".toList] ∧
    NormalizeName lib "alice".toList = NormalizeName lib "Alice".toList ∧
    ¬ NamesDistinct lib (run sampleConfig lib (boot 8989) raceSchedule).world.server := by
  refine ⟨race_keys lib, rfl, ?_⟩
  have h := race_keys lib
  unfold NamesDistinct
  have hm : (run sampleConfig lib (boot 8989) raceSchedule).world.server.clients.map
      (fun e => NormalizeName lib e.1) =
      ((run sampleConfig lib (boot 8989) raceSchedule).world.server.clients.map Prod.fst).map
        (NormalizeName lib) := by
    rw [List.map_map]; rfl
  rw [hm, h]
  simp [norm_alice, norm_Alice]

theorem run_append (cfg : Config) (lib : Lib) (s : System) (xs ys : List Action) :
    run cfg lib s (xs ++ ys) = run cfg lib (run cfg lib s xs) ys := by
  simp [run, List.foldl_append]

theorem run_single (cfg : Config) (lib : Lib) (s : System) (a : Action) :
    run cfg lib s [a] = step cfg lib s a := rfl

theorem step_say (cfg : Config) (lib : Lib) (s : System) (conn : Nat) (client : Client)
    (line : Line) (h : s.phase conn = some (Phase.active client)) :
    step cfg lib s (Action.say conn line) =
      s.goto conn (Phase.active client) (readLoop client [line] s.world) := by
  simp [step, h]

theorem step_replay (cfg : Config) (lib : Lib) (s : System) (conn : Nat) (client : Client)
    (h : s.phase conn = some (Phase.inserted client)) :
    step cfg lib s (Action.replay conn) =
      s.goto conn (Phase.replayed client) (sendHistory client s.world) := by
  simp [step, h]

theorem join_server (lib : Lib) :
    (run sampleConfig lib (boot 8989) joinSchedule).world.server =
      { port := 8989,
        clients := [("alice".toList, alice), ("bob".toList, bob)],
        messages := [{ Time := 100, From := "system".toList, Content := "alice has joined".toList },
                     { Time := 101, From := "alice".toList, Content := "first".toList }] } := by
  simp [run, joinSchedule, step, boot, System.phase, System.goto, acceptOne, NewServer,
    World.emit, sampleConfig, NewClient, getNameBody, register, mapSet, trim_alice, trim_bob,
    valid_alice, valid_bob, norm_alice, norm_bob, sendHistory, broadcast, readLoop, trim_first,
    alice, bob]

theorem join_phases (lib : Lib) :
    (run sampleConfig lib (boot 8989) joinSchedule).phases =
      [(2, Phase.inserted bob), (1, Phase.active alice)] := by
  simp [run, joinSchedule, step, boot, System.phase, System.goto, acceptOne, NewServer,
    World.emit, sampleConfig, NewClient, getNameBody, register, mapSet, trim_alice, trim_bob,
    valid_alice, valid_bob, norm_alice, norm_bob, sendHistory, broadcast, readLoop, trim_first,
    alice, bob]

theorem late_world (lib : Lib) :
    (run sampleConfig lib (boot 8989) (joinSchedule ++ [lateLine])).world =
      broadcast allReady { Time := 102, From := "alice".toList, Content := "second".toList }
        (run sampleConfig lib (boot 8989) joinSchedule).world ∧
    (run sampleConfig lib (boot 8989) (joinSchedule ++ [lateLine])).phase 2 =
      some (Phase.inserted bob) := by
  have hp : (run sampleConfig lib (boot 8989) joinSchedule).phase 1 =
      some (Phase.active alice) := by
    simp [System.phase, join_phases]
  rw [run_append]
  rw [run_single, lateLine, step_say _ _ _ _ _ _ hp]
  constructor
  · simp [System.goto, readLoop, trim_second, alice]
  · simp [System.goto, System.phase, join_phases]

theorem join_then_replay (lib : Lib) :
    (run sampleConfig lib (boot 8989) (joinSchedule ++ [Action.replay 2])).world.trace =
      (run sampleConfig lib (boot 8989) joinSchedule).world.trace ++
        [Event.chanSend bob
           { Time := 100, From := "system".toList, Content := "alice has joined".toList },
         Event.chanSend bob
           { Time := 101, From := "alice".toList, Content := "first".toList }] := by
  have hp : (run sampleConfig lib (boot 8989) joinSchedule).phase 2 =
      some (Phase.inserted bob) := by
    simp [System.phase, join_phases]
  rw [run_append, run_single, step_replay _ _ _ _ _ hp]
  simp [System.goto, sendHistory, World.emit, join_server]

/-- C5: the code at the failing schedule.  Bob is inserted in the registry
when the history is `alice has joined`, `first`; then Alice broadcasts the
line `second` (which `broadcast` also offers to Bob live); then `sendHistory`
runs for Bob and sends him `alice has joined`, `first` and `second`: the
replay is not the history as of the insertion.  The last part is the same
execution without the line in between: there the replay is that history. -/
theorem replay_includes_later_broadcast (lib : Lib) :
    mapGet (run sampleConfig lib (boot 8989) joinSchedule).world.server.clients
      "bob".toList = some bob ∧
    (run sampleConfig lib (boot 8989) joinSchedule).world.server.messages =
      [{ Time := 100, From := "system".toList, Content := "alice has joined".toList },
       { Time := 101, From := "alice".toList, Content := "first".toList }] ∧
    (run sampleConfig lib (boot 8989) (joinSchedule ++ [lateLine])).world.trace =
      (run sampleConfig lib (boot 8989) joinSchedule).world.trace ++
        [Event.chanTry alice
           { Time := 102, From := "alice".toList, Content := "second".toList } true,
         Event.chanTry bob
           { Time := 102, From := "alice".toList, Content := "second".toList } true] ∧
    (run sampleConfig lib (boot 8989) (joinSchedule ++ [lateLine] ++ [Action.replay 2])).world.trace =
      (run sampleConfig lib (boot 8989) (joinSchedule ++ [lateLine])).world.trace ++
        [Event.chanSend bob
           { Time := 100, From := "system".toList, Content := "alice has joined".toList },
         Event.chanSend bob
           { Time := 101, From := "alice".toList, Content := "first".toList },
         Event.chanSend bob
           { Time := 102, From := "alice".toList, Content := "second".toList }] ∧
    (run sampleConfig lib (boot 8989) (joinSchedule ++ [Action.replay 2])).world.trace =
      (run sampleConfig lib (boot 8989) joinSchedule).world.trace ++
        [Event.chanSend bob
           { Time := 100, From := "system".toList, Content := "alice has joined".toList },
         Event.chanSend bob
           { Time := 101, From := "alice".toList, Content := "first".toList }] := by
  obtain ⟨hw, hp⟩ := late_world lib
  have hs := join_server lib
  refine ⟨?_, ?_, ?_, ?_, join_then_replay lib⟩
  · rw [hs]; decide
  · rw [hs]
  · rw [hw]
    simp [broadcast, hs, allReady]
  · rw [run_append _ _ _ (joinSchedule ++ [lateLine]), run_single, step_replay _ _ _ _ _ hp]
    simp [System.goto, sendHistory, World.emit, hw, broadcast, hs]

/-! ## The consumers of the outbound queue -/

theorem consumers_append (conn : Nat) (t1 t2 : List Event) :
    consumers conn (t1 ++ t2) = consumers conn t1 + consumers conn t2 := by
  simp [consumers, List.filter_append]

theorem consumers_eq_zero (conn : Nat) (t : List Event)
    (h : ∀ e ∈ t, startsConsumer conn e = false) : consumers conn t = 0 := by
  unfold consumers
  rw [List.length_eq_zero, List.filter_eq_nil_iff]
  intro e he
  simp [h e he]

theorem getNameBody_trace (cfg : Config) (lib : Lib) (c : Client) (line : Str) (w : World)
    (conn : Nat) :
    consumers conn (getNameBody cfg lib c line w).2.trace = consumers conn w.trace := by
  unfold getNameBody
  simp only
  split
  · simp [World.emit, consumers_append, consumers, startsConsumer]
  · split
    · simp [World.emit, consumers_append, consumers, startsConsumer]
    · rfl

theorem getName_trace (cfg : Config) (lib : Lib) (c : Client) (lines : List Str) (w : World)
    (conn : Nat) :
    consumers conn (getName cfg lib c lines w).2.trace = consumers conn w.trace := by
  induction lines generalizing w with
  | nil => rfl
  | cons line rest ih =>
    have hb := getNameBody_trace cfg lib c line w conn
    unfold getName
    split
    · rename_i name w1 heq
      rw [heq] at hb
      exact hb
    · rename_i w1 heq
      rw [heq] at hb
      rw [ih, hb]

theorem consumers_replicate_worker (conn n : Nat) :
    consumers conn (List.replicate n (Event.spawn (Task.messageWorker conn))) = n := by
  induction n with
  | zero => rfl
  | succ n ih =>
    rw [List.replicate_succ]
    have : consumers conn (Event.spawn (Task.messageWorker conn) ::
        List.replicate n (Event.spawn (Task.messageWorker conn))) =
        consumers conn (List.replicate n (Event.spawn (Task.messageWorker conn))) + 1 := by
      simp [consumers, startsConsumer]
    rw [this, ih]

theorem handleConnection_consumers (cfg : Config) (lib : Lib) (conn : Nat) (lines : List Str)
    (now : Nat) (ready : Client → Bool) (w : World) (name : Str) (w3 : World)
    (hok : getName cfg lib (NewClient conn w).1 lines
      ((NewClient conn w).2.emit
        [Event.connWrite conn cfg.WelcomeBanner, Event.connWrite conn cfg.NamePrompt]) =
      (Except.ok name, w3)) :
    consumers conn (handleConnection cfg lib conn lines now ready w).trace =
      consumers conn w.trace + 11 := by
  have ht := getName_trace cfg lib (NewClient conn w).1 lines
      ((NewClient conn w).2.emit
        [Event.connWrite conn cfg.WelcomeBanner, Event.connWrite conn cfg.NamePrompt]) conn
  rw [hok] at ht
  simp only at ht
  unfold handleConnection
  simp only [hok]
  simp only [World.emit, broadcast, sendHistory, register, consumers_append]
  simp only [World.emit, NewClient, consumers_append, consumers_replicate_worker] at ht
  rw [ht]
  have h1 : ∀ (c : Client) (ms : List Message),
      consumers conn (List.map (fun msg => Event.chanSend c msg) ms) = 0 := by
    intro c ms
    apply consumers_eq_zero
    intro e he
    obtain ⟨m, _, rfl⟩ := List.mem_map.mp he
    rfl
  have h2 : ∀ (m : Message) (cs : List Client),
      consumers conn (List.map (fun client => Event.chanTry client m (ready client)) cs) = 0 := by
    intro m cs
    apply consumers_eq_zero
    intro e he
    obtain ⟨c, _, rfl⟩ := List.mem_map.mp he
    rfl
  have h3 : consumers conn
      [Event.connWrite conn cfg.WelcomeBanner, Event.connWrite conn cfg.NamePrompt] = 0 := rfl
  have h4 : consumers conn
      [Event.spawn (Task.Read conn), Event.spawn (Task.Write conn)] = 1 := by
    simp [consumers, startsConsumer]
  rw [h1, h2, h3, h4]

/-- C10: the code starts eleven consumers.  A `handleConnection` that gets a
name starts eleven tasks that receive from the channel of its client (ten
`messageWorker` and one `Write`); and with two consumers the lines can reach
the connection in the opposite order of the sends. -/
theorem eleven_consumers (cfg : Config) (lib : Lib) :
    (∀ (conn : Nat) (lines : List Str) (now : Nat) (ready : Client → Bool) (w : World)
        (name : Str) (w3 : World),
      getName cfg lib (NewClient conn w).1 lines
        ((NewClient conn w).2.emit
          [Event.connWrite conn cfg.WelcomeBanner, Event.connWrite conn cfg.NamePrompt]) =
        (Except.ok name, w3) →
      consumers conn (handleConnection cfg lib conn lines now ready w).trace =
        consumers conn w.trace + 11) ∧
    (∀ (m1 m2 : Message),
      (deliver cfg lib [m1, m2]
        [ConsumerStep.receive (Consumer.worker 0), ConsumerStep.receive (Consumer.worker 1),
         ConsumerStep.write (Consumer.worker 1), ConsumerStep.write (Consumer.worker 0)]).written =
        [FormatMessage (lib.format "2006-01-02 15:04:05".toList m2.Time) m2.From m2.Content,
         FormatMessage (lib.format "2006-01-02 15:04:05".toList m1.Time) m1.From m1.Content]) :=
  ⟨fun conn lines now ready w name w3 hok =>
    handleConnection_consumers cfg lib conn lines now ready w name w3 hok,
   fun _ _ => rfl⟩

theorem eleven_consumers_witness :
    consumers 1 (handleConnection sampleConfig sampleLib 1 ["alice\n".toList] 100 allReady
      { server := NewServer 8989, trace := [] }).trace = 11 :=
  (eleven_consumers sampleConfig sampleLib).1 1 ["alice\n".toList] 100 allReady
    { server := NewServer 8989, trace := [] } "alice".toList _ (by rfl)

end NetCat
